import Mathlib

/-!
Verification of `scaffold.py`: a CLI tool that tokenizes an indentation-based
textual description of a directory tree, validates parent/child depth
consistency under a configurable error policy, and materializes the result on
a filesystem.  The definitions below are a shallow embedding of the functions
`tokenize_structure`, `validate_tokens`, `build_from_tokens` and the pipeline
in `main`; the filesystem is modelled as explicit state (sets of directory
paths and file paths, a path being its list of components relative to the
root).  The reverse direction (`generate_directory_file`) is called by `main`
but absent from the source, so it is modelled from the specification.
-/

namespace Scaffold

/-- The kind of a token: Python strings "file" / "folder". -/
inductive EntryKind where
  | file
  | folder
deriving DecidableEq, Repr

/-- One token produced by `tokenize_structure`: the Python dict with keys
`type`, `depth`, `name`, `raw`, `line_number`. -/
structure Token where
  type : EntryKind
  depth : Nat
  name : String
  raw : String
  line_number : Nat
deriving DecidableEq, Repr

/-! ## Tokenizer (`tokenize_structure`, scaffold.py lines 56-78) -/

/-- Python `line.lstrip()`: drop leading whitespace. -/
def pyLstrip (s : String) : String := ⟨s.data.dropWhile Char.isWhitespace⟩

/-- Python `line.strip()`: drop leading and trailing whitespace. -/
def pyStrip (s : String) : String :=
  ⟨((s.data.dropWhile Char.isWhitespace).reverse.dropWhile Char.isWhitespace).reverse⟩

/-- Python `name.rstrip("/")`: drop trailing slash characters. -/
def rstripSlashes (s : String) : String :=
  ⟨(s.data.reverse.dropWhile (fun c => c == '/')).reverse⟩

/-- Python `name.endswith("/")`. -/
def endsWithSlash (s : String) : Bool :=
  match s.data.getLast? with
  | some c => c == '/'
  | none => false

/-- The token built from line `line` at 0-based index `i`
(`tokenize_structure` loop body): `depth` is `len(line) - len(line.lstrip())`,
`name` is the stripped line with trailing slashes removed, `raw` is the
stripped line, `line_number` is `i + 1`. -/
def mkToken (i : Nat) (line : String) : Token :=
  let name := pyStrip line
  { type := if endsWithSlash name then EntryKind.folder else EntryKind.file
    depth := line.length - (pyLstrip line).length
    name := rstripSlashes name
    raw := pyStrip line
    line_number := i + 1 }

/-- The enumeration loop of `tokenize_structure`, carrying the 0-based index:
blank (whitespace-only) lines are skipped. -/
def tokenizeFrom (i : Nat) : List String → List Token
  | [] => []
  | l :: ls =>
    if pyStrip l = "" then tokenizeFrom (i + 1) ls
    else mkToken i l :: tokenizeFrom (i + 1) ls

/-- `tokenize_structure(lines)` (scaffold.py lines 56-78). -/
def tokenize_structure (lines : List String) : List Token := tokenizeFrom 0 lines

/-! ## Validator (`validate_tokens`, scaffold.py lines 80-110) -/

/-- The `folder_stack` dict: association list from depth (a Python `int`) to
the most recently recorded folder name; new bindings shadow old ones. -/
abbrev Ledger := List (Int × String)

/-- `depth - 2 in folder_stack`: membership of a key in the dict. -/
def hasKey (L : Ledger) (k : Int) : Prop := k ∈ L.map Prod.fst

instance (L : Ledger) (k : Int) : Decidable (hasKey L k) := by
  unfold hasKey; infer_instance

/-- `folder_stack[depth] = name`, performed exactly when the token is a
folder. -/
def ledgerUpd (L : Ledger) (t : Token) : Ledger :=
  if t.type = EntryKind.folder then ((t.depth : Int), t.name) :: L else L

/-- The ledger obtained after scanning a list of tokens in input order
(folders always update it, files never do). -/
def ledgerAfter (L : Ledger) : List Token → Ledger
  | [] => L
  | t :: ts => ledgerAfter (ledgerUpd L t) ts

/-- The `ValueError` message of `validate_tokens`:
`f"Line {line_number}: File {name} has no parent folder at depth {depth-2}."`
(the name is quoted in the original). -/
def orphanMsg (t : Token) : String :=
  "Line " ++ toString t.line_number ++ ": File '" ++ t.name ++
    "' has no parent folder at depth " ++ toString ((t.depth : Int) - 2) ++ "."

/-- The loop of `validate_tokens`, with the mutable `folder_stack` made an
explicit parameter.  A `file` token whose `depth - 2` is not a ledger key is
skipped under `skip_bad`, kept with `depth := 0` under `fix_bad`, and raises
(returns `Except.error`) otherwise; every folder token records itself in the
ledger and is kept. -/
def validateFrom (skip_bad fix_bad : Bool) (L : Ledger) :
    List Token → Except String (List Token)
  | [] => Except.ok []
  | t :: ts =>
    if t.type = EntryKind.file ∧ ¬ hasKey L ((t.depth : Int) - 2) then
      if skip_bad then validateFrom skip_bad fix_bad L ts
      else if fix_bad then
        match validateFrom skip_bad fix_bad L ts with
        | Except.error e => Except.error e
        | Except.ok v => Except.ok ({ t with depth := 0 } :: v)
      else Except.error (orphanMsg t)
    else
      match validateFrom skip_bad fix_bad (ledgerUpd L t) ts with
      | Except.error e => Except.error e
      | Except.ok v => Except.ok (t :: v)

/-- `validate_tokens(tokens, skip_bad, fix_bad)` (scaffold.py lines 80-110),
starting from the empty `folder_stack`. -/
def validate_tokens (tokens : List Token) (skip_bad fix_bad : Bool) :
    Except String (List Token) :=
  validateFrom skip_bad fix_bad [] tokens

/-- Equality of `Except` results is decidable when both components are. -/
instance {e a : Type} [DecidableEq e] [DecidableEq a] :
    DecidableEq (Except e a) := fun x y =>
  match x, y with
  | Except.error u, Except.error v =>
    if h : u = v then isTrue (by rw [h])
    else isFalse (fun hh => h (Except.error.inj hh))
  | Except.error _, Except.ok _ => isFalse (fun hh => Except.noConfusion hh)
  | Except.ok _, Except.error _ => isFalse (fun hh => Except.noConfusion hh)
  | Except.ok u, Except.ok v =>
    if h : u = v then isTrue (by rw [h])
    else isFalse (fun hh => h (Except.ok.inj hh))

/-! ## Builder (`build_from_tokens`, scaffold.py lines 135-155)

The filesystem is modelled as explicit state: the set of directory paths and
the set of file paths that exist, a path being its list of components
relative to the working directory (`[]` is the working directory itself,
which always exists as a directory).  `pathlib` operations are modelled on
components: `Path.mkdir(parents=True, exist_ok=True)` creates every missing
ancestor and fails only when the path or an ancestor exists as a file;
`Path.touch(exist_ok=True)` fails when the path is a directory or its parent
is missing, and leaves an already-existing file unchanged. -/

/-- Filesystem state: which directory paths and file paths exist. -/
structure FS where
  dirs : List (List String)
  files : List (List String)
deriving DecidableEq, Repr

/-- Split a character list at `/` separators. -/
def splitSlashAux : List Char → List Char → List String
  | [], acc => [⟨acc.reverse⟩]
  | c :: cs, acc =>
    if c == '/' then (⟨acc.reverse⟩ : String) :: splitSlashAux cs []
    else splitSlashAux cs (c :: acc)

/-- Split a name on `/` into its path components, dropping empty components
and `.` as `pathlib` does. -/
def pathComponentsOf (s : String) : List String :=
  (splitSlashAux s.data []).filter (fun c => decide (c ≠ "" ∧ c ≠ "."))

/-- `base_path / name`: appends the components of `name` to the base, except
that a name starting with `/` is absolute and replaces the base, as with
`pathlib`'s `/` operator. -/
def joinPath (base : List String) (s : String) : List String :=
  match s.data with
  | '/' :: _ => pathComponentsOf s
  | _ => base ++ pathComponentsOf s

/-- The nonempty initial segments of a path: every ancestor, innermost last,
the path itself included. -/
def initSegs (p : List String) : List (List String) :=
  (List.range p.length).map (fun i => p.take (i + 1))

/-- Record a directory path, keeping the list duplicate-free. -/
def addDir (ds : List (List String)) (q : List String) : List (List String) :=
  if q ∈ ds then ds else ds ++ [q]

/-- `full_path.mkdir(parents=True, exist_ok=True)`: every missing ancestor is
created; a file standing where a directory is needed is an error;
pre-existing directories are not. -/
def mkdirP (fs : FS) (p : List String) : Except String FS :=
  if ∃ q ∈ initSegs p, q ∈ fs.files then
    Except.error "mkdir failed: a file exists on the path"
  else
    Except.ok { fs with dirs := (initSegs p).foldl addDir fs.dirs }

/-- `full_path.touch(exist_ok=True)`: an existing directory at the path or a
missing parent directory is an error; an existing file is left unchanged. -/
def touchF (fs : FS) (p : List String) : Except String FS :=
  if p = [] ∨ p ∈ fs.dirs then
    Except.error "touch failed: path is a directory"
  else if ¬ (p.dropLast = [] ∨ p.dropLast ∈ fs.dirs) then
    Except.error "touch failed: parent directory is missing"
  else if p ∈ fs.files then Except.ok fs
  else Except.ok { fs with files := fs.files ++ [p] }

/-- One iteration of the two creation loops of `build_from_tokens`: a folder
token runs `(base_path / name).mkdir(parents=True, exist_ok=True)`; a file
token runs `full_path.parent.mkdir(parents=True, exist_ok=True)` followed by
`full_path.touch(exist_ok=True)`.  Under `dry_run` nothing happens. -/
def buildOne (dry_run : Bool) (base : List String) (fs : FS) (t : Token) :
    Except String FS :=
  match t.type with
  | EntryKind.folder =>
    if dry_run then Except.ok fs
    else mkdirP fs (joinPath base t.name)
  | EntryKind.file =>
    if dry_run then Except.ok fs
    else
      match mkdirP fs ((joinPath base t.name).dropLast) with
      | Except.error e => Except.error e
      | Except.ok fs1 => touchF fs1 (joinPath base t.name)

/-- Run the creation steps in order; the first error aborts the rest with no
rollback. -/
def runBuild (dry_run : Bool) (base : List String) :
    FS → List Token → Except String FS
  | fs, [] => Except.ok fs
  | fs, t :: ts =>
    match buildOne dry_run base fs t with
    | Except.error e => Except.error e
    | Except.ok fs1 => runBuild dry_run base fs1 ts

/-- Stable insertion of a token into a depth-sorted list: the inserted token
goes before every token of depth greater than or equal to its own, matching
Python's stable `sorted(..., key=lambda x: x["depth"])` when used with
`List.foldr`. -/
def insertByDepth (t : Token) : List Token → List Token
  | [] => [t]
  | u :: us =>
    if u.depth < t.depth then u :: insertByDepth t us else t :: u :: us

/-- `sorted(tokens, key=lambda x: x["depth"])`: stable ascending sort. -/
def sortByDepth (ts : List Token) : List Token := ts.foldr insertByDepth []

/-- `build_from_tokens(base_path, tokens, dry_run)` (scaffold.py lines
135-155): all folder tokens sorted ascending by depth, then all file tokens
sorted ascending by depth, each materialized relative to `base`. -/
def build_from_tokens (base : List String) (tokens : List Token)
    (dry_run : Bool) (fs : FS) : Except String FS :=
  runBuild dry_run base fs
    (sortByDepth (tokens.filter (fun t => decide (t.type = EntryKind.folder)))
      ++ sortByDepth (tokens.filter (fun t => decide (t.type = EntryKind.file))))

/-- The forward pipeline of `main` (scaffold.py lines 178-187): tokenize the
raw lines, validate them, and build from the working directory (`base = []`);
a validation error aborts before any filesystem action. -/
def runPipeline (lines : List String) (skip_bad fix_bad dry_run : Bool)
    (fs : FS) : Except String FS :=
  match validate_tokens (tokenize_structure lines) skip_bad fix_bad with
  | Except.error e => Except.error e
  | Except.ok v => build_from_tokens [] v dry_run fs

/-! ## TreeWalker (reverse direction)

`main` calls `generate_directory_file(base_path, output_file)` for
`--reverse`, but that function is absent from the source file; it is modelled
from the specification below. -/

/-- A real directory tree: a file, or a directory with its children. -/
inductive FsTree where
  | file (name : String)
  | dir (name : String) (children : List FsTree)
deriving Repr

/-- The base name of a tree entry. -/
def nameOf : FsTree → String
  | FsTree.file n => n
  | FsTree.dir n _ => n

/-- Modelled from the spec: TreeWalker excludes entries whose name begins
with `.`, except the literal name `.gitignore`. -/
def keepEntry (n : String) : Bool :=
  match n.data with
  | '.' :: _ => decide (n = ".gitignore")
  | _ => true

/-- Lexicographic comparison of strings by character code, the order in which
TreeWalker visits children. -/
def lexLe : List Char → List Char → Bool
  | [], _ => true
  | _ :: _, [] => false
  | a :: as, b :: bs =>
    if a.val < b.val then true
    else if b.val < a.val then false
    else lexLe as bs

/-- Insertion into a list of (name, rendered lines) pairs sorted by name. -/
def insPair (x : String × List String) :
    List (String × List String) → List (String × List String)
  | [] => [x]
  | y :: ys => if lexLe y.1.data x.1.data then y :: insPair x ys else x :: y :: ys

/-- Sort (name, rendered lines) pairs lexicographically by name. -/
def sortPairs (l : List (String × List String)) : List (String × List String) :=
  l.foldr insPair []

/-- `2 * depth` spaces of indentation. -/
def indentStr (d : Nat) : String := ⟨List.replicate (2 * d) ' '⟩

mutual

/-- Modelled from the spec: TreeWalker renders a directory as its name with a
trailing separator indented by `2 * depth` spaces followed by its walked
children at `depth + 1`, and a file as its name indented the same way; the
non-excluded children of a directory are visited in lexicographic order by
name (children of a real directory have distinct names, so ordering the
rendered blocks by child name is visiting the children in that order). -/
def walkTree (d : Nat) : FsTree → List String
  | FsTree.file n => [indentStr d ++ n]
  | FsTree.dir n cs =>
    (indentStr d ++ n ++ "/") ::
      (List.map Prod.snd (sortPairs (walkForest (d + 1) cs))).flatten

/-- Modelled from the spec: the (name, rendered lines) pairs of the
non-excluded entries of a directory, in declaration order, to be sorted by
name by the caller. -/
def walkForest (d : Nat) : List FsTree → List (String × List String)
  | [] => []
  | c :: cs =>
    if keepEntry (nameOf c) then (nameOf c, walkTree d c) :: walkForest d cs
    else walkForest d cs

end

/-- Modelled from the spec: the lines TreeWalker produces for the children of
the starting directory, at depth 0. -/
def walkKids (d : Nat) (cs : List FsTree) : List String :=
  (List.map Prod.snd (sortPairs (walkForest d cs))).flatten

mutual

/-- The nested directory paths of a tree entry placed under prefix `pre`. -/
def dirPathsOf (pre : List String) : FsTree → List (List String)
  | FsTree.file _ => []
  | FsTree.dir n cs => (pre ++ [n]) :: dirPathsForest (pre ++ [n]) cs

/-- The nested directory paths of a list of tree entries under `pre`. -/
def dirPathsForest (pre : List String) : List FsTree → List (List String)
  | [] => []
  | c :: cs => dirPathsOf pre c ++ dirPathsForest pre cs

end

mutual

/-- The nested file paths of a tree entry placed under prefix `pre`. -/
def filePathsOf (pre : List String) : FsTree → List (List String)
  | FsTree.file n => [pre ++ [n]]
  | FsTree.dir n cs => filePathsForest (pre ++ [n]) cs

/-- The nested file paths of a list of tree entries under `pre`. -/
def filePathsForest (pre : List String) : List FsTree → List (List String)
  | [] => []
  | c :: cs => filePathsOf pre c ++ filePathsForest pre cs

end

/-- The file paths of a whole tree (a list of root entries). -/
def rootFilePaths (root : List FsTree) : List (List String) :=
  filePathsForest [] root

/-! ## Tokenizer lemmas -/

lemma tokenizeFrom_length (i : Nat) (lines : List String) :
    (tokenizeFrom i lines).length =
      (lines.filter (fun l => decide (pyStrip l ≠ ""))).length := by
  induction lines generalizing i with
  | nil => rfl
  | cons l ls ih =>
    by_cases h : pyStrip l = "" <;>
      simp [tokenizeFrom, h, List.filter, ih]

lemma length_sub_dropWhile (p : Char → Bool) (cs : List Char) :
    cs.length - (cs.dropWhile p).length = (cs.takeWhile p).length := by
  have h : (cs.takeWhile p).length + (cs.dropWhile p).length = cs.length := by
    rw [← List.length_append, List.takeWhile_append_dropWhile]
  omega

lemma mkToken_depth (i : Nat) (l : String) :
    (mkToken i l).depth = (l.data.takeWhile Char.isWhitespace).length := by
  show l.length - (pyLstrip l).length = _
  have h : l.length = l.data.length := rfl
  have h2 : (pyLstrip l).length = (l.data.dropWhile Char.isWhitespace).length := rfl
  rw [h, h2, length_sub_dropWhile]

lemma tokenizeFrom_get (lines : List String) (n i : Nat) (h : i < lines.length)
    (hnb : pyStrip (lines.get ⟨i, h⟩) ≠ "") :
    mkToken (n + i) (lines.get ⟨i, h⟩) ∈ tokenizeFrom n lines := by
  induction lines generalizing n i with
  | nil => exact absurd h (by simp)
  | cons l ls ih =>
    cases i with
    | zero =>
      simp only [List.get] at hnb ⊢
      simp [tokenizeFrom, hnb]
    | succ j =>
      simp only [List.get] at hnb ⊢
      have hj : j < ls.length := by
        simpa [Nat.succ_lt_succ_iff] using h
      have hmem := ih (n + 1) j hj hnb
      have harith : n + 1 + j = n + (j + 1) := by omega
      rw [harith] at hmem
      simp only [List.get_eq_getElem] at hmem
      by_cases hb : pyStrip l = "" <;>
        simp [tokenizeFrom, hb, hmem]

/-- C6: for every input line sequence, the Tokenizer produces exactly one
token per line that is not blank or whitespace-only (`if not line.strip():
continue` skips exactly the blank lines). -/
theorem tokenize_length_eq_nonblank_count (lines : List String) :
    (tokenize_structure lines).length =
      (lines.filter (fun l => decide (pyStrip l ≠ ""))).length :=
  tokenizeFrom_length 0 lines

/-- C7: for every non-blank input line, the token the Tokenizer produces for
it (the one carrying its 1-based line number) has `depth` equal to the number
of leading whitespace characters of that line (`len(line) - len(line.lstrip())`
with no tab normalization: a tab counts as one character). -/
theorem tokenize_depth_eq_leading_whitespace (lines : List String) (i : Nat)
    (h : i < lines.length) (hnb : pyStrip (lines.get ⟨i, h⟩) ≠ "") :
    ∃ t ∈ tokenize_structure lines, t.line_number = i + 1 ∧
      t.depth = ((lines.get ⟨i, h⟩).data.takeWhile Char.isWhitespace).length := by
  refine ⟨mkToken (0 + i) (lines.get ⟨i, h⟩), tokenizeFrom_get lines 0 i h hnb, ?_, ?_⟩
  · show 0 + i + 1 = i + 1
    omega
  · rw [mkToken_depth]

/-- Witness for C7 at the line `"  a"` inside `["", "  a"]`: its token has
line number 2 and depth 2. -/
theorem tokenize_depth_eq_leading_whitespace_witness :
    ∃ t ∈ tokenize_structure ["", "  a"], t.line_number = 2 ∧
      t.depth = ((("  a" : String)).data.takeWhile Char.isWhitespace).length :=
  tokenize_depth_eq_leading_whitespace ["", "  a"] 1 (by decide) (by decide)

/-- C8 counterexample: the claim says `raw` is the original line text exactly
as it appeared, leading whitespace included; but for the input line
`"  main.py"` the produced token has `raw = "main.py"`, which differs from
the original line (the source stores `line.strip()`, scaffold.py line 75). -/
theorem tokenize_raw_not_original_line :
    (tokenize_structure ["  main.py"]).map (fun t => t.raw) = ["main.py"] ∧
      ("main.py" : String) ≠ "  main.py" := by
  constructor
  · rfl
  · decide

/-- C8 amended: for every non-blank input line, the `raw` field of its token
equals the line with leading and trailing whitespace stripped
(`line.strip()`), not the original line text. -/
theorem tokenize_raw_eq_stripped_line (lines : List String) (i : Nat)
    (h : i < lines.length) (hnb : pyStrip (lines.get ⟨i, h⟩) ≠ "") :
    ∃ t ∈ tokenize_structure lines, t.line_number = i + 1 ∧
      t.raw = pyStrip (lines.get ⟨i, h⟩) := by
  refine ⟨mkToken (0 + i) (lines.get ⟨i, h⟩), tokenizeFrom_get lines 0 i h hnb, ?_, rfl⟩
  show 0 + i + 1 = i + 1
  omega

/-- Witness for the amended C8 at the line `"  main.py"`: its token has
`raw = "main.py"`. -/
theorem tokenize_raw_eq_stripped_line_witness :
    ∃ t ∈ tokenize_structure ["  main.py"], t.line_number = 1 ∧
      t.raw = pyStrip "  main.py" :=
  tokenize_raw_eq_stripped_line ["  main.py"] 0 (by decide) (by decide)

/-! ## Validator lemmas -/

lemma ledgerUpd_file (L : Ledger) (t : Token) (h : t.type = EntryKind.file) :
    ledgerUpd L t = L := by
  simp [ledgerUpd, h]

lemma validateFrom_cons_skip (fb : Bool) (L : Ledger) (t : Token)
    (ts : List Token)
    (hc : t.type = EntryKind.file ∧ ¬ hasKey L ((t.depth : Int) - 2)) :
    validateFrom true fb L (t :: ts) = validateFrom true fb L ts := by
  conv_lhs => unfold validateFrom
  rw [if_pos hc]
  rfl

lemma validateFrom_cons_fix (L : Ledger) (t : Token) (ts : List Token)
    (hc : t.type = EntryKind.file ∧ ¬ hasKey L ((t.depth : Int) - 2)) :
    validateFrom false true L (t :: ts) =
      match validateFrom false true L ts with
      | Except.error e => Except.error e
      | Except.ok v => Except.ok ({ t with depth := 0 } :: v) := by
  conv_lhs => unfold validateFrom
  rw [if_pos hc]
  rfl

lemma validateFrom_cons_strict (L : Ledger) (t : Token) (ts : List Token)
    (hc : t.type = EntryKind.file ∧ ¬ hasKey L ((t.depth : Int) - 2)) :
    validateFrom false false L (t :: ts) = Except.error (orphanMsg t) := by
  conv_lhs => unfold validateFrom
  rw [if_pos hc]
  rfl

lemma validateFrom_cons_good (sb fb : Bool) (L : Ledger) (t : Token)
    (ts : List Token)
    (hc : ¬ (t.type = EntryKind.file ∧ ¬ hasKey L ((t.depth : Int) - 2))) :
    validateFrom sb fb L (t :: ts) =
      match validateFrom sb fb (ledgerUpd L t) ts with
      | Except.error e => Except.error e
      | Except.ok v => Except.ok (t :: v) := by
  conv_lhs => unfold validateFrom
  rw [if_neg hc]

/-- Validation of a concatenation: run the first part, then the second part
from the ledger the first part leaves behind, concatenating the outputs. -/
lemma validateFrom_append (sb fb : Bool) (pre rest : List Token) (L : Ledger) :
    validateFrom sb fb L (pre ++ rest) =
      match validateFrom sb fb L pre with
      | Except.error e => Except.error e
      | Except.ok v =>
        match validateFrom sb fb (ledgerAfter L pre) rest with
        | Except.error e => Except.error e
        | Except.ok w => Except.ok (v ++ w)
  := by
  induction pre generalizing L with
  | nil =>
    simp only [List.nil_append, validateFrom, ledgerAfter]
    cases h : validateFrom sb fb L rest <;> simp
  | cons t pre ih =>
    rw [List.cons_append]
    by_cases hc : t.type = EntryKind.file ∧ ¬ hasKey L ((t.depth : Int) - 2)
    · cases sb
      · cases fb
        · rw [validateFrom_cons_strict L t (pre ++ rest) hc,
            validateFrom_cons_strict L t pre hc]
        · rw [validateFrom_cons_fix L t (pre ++ rest) hc,
            validateFrom_cons_fix L t pre hc, ih]
          simp only [ledgerAfter, ledgerUpd_file L t hc.1]
          cases h1 : validateFrom false true L pre <;>
            cases h2 : validateFrom false true (ledgerAfter L pre) rest <;> simp
      · rw [validateFrom_cons_skip fb L t (pre ++ rest) hc,
          validateFrom_cons_skip fb L t pre hc, ih]
        simp only [ledgerAfter, ledgerUpd_file L t hc.1]
    · rw [validateFrom_cons_good sb fb L t (pre ++ rest) hc,
        validateFrom_cons_good sb fb L t pre hc, ih]
      simp only [ledgerAfter]
      cases h1 : validateFrom sb fb (ledgerUpd L t) pre <;>
        cases h2 : validateFrom sb fb (ledgerAfter (ledgerUpd L t) pre) rest <;>
          simp

/-- Under `Strict`, an orphan file entry reached with ledger `ledgerAfter []
pre` makes the whole validation raise with its diagnostic, whatever follows. -/
lemma strict_orphan_aux (pre : List Token) (t : Token) (post : List Token)
    (vpre : List Token)
    (hpre : validateFrom false false [] pre = Except.ok vpre)
    (ht : t.type = EntryKind.file)
    (hk : ¬ hasKey (ledgerAfter [] pre) ((t.depth : Int) - 2)) :
    validate_tokens (pre ++ t :: post) false false =
      Except.error (orphanMsg t) := by
  unfold validate_tokens
  rw [validateFrom_append, hpre]
  simp [validateFrom, ht, hk]

/-- C3: under `Strict` policy, a token sequence containing a File entry whose
`depth - 2` is not a key of the folder ledger at the moment that entry is
processed fails with the `OrphanFileError` diagnostic built from the entry's
line number, file name, and expected parent depth (`orphanMsg`), and halts
right there: the result is the bare error, no partial output, whatever
entries follow. -/
theorem validate_strict_orphan_halts (pre : List Token) (t : Token)
    (post : List Token) (vpre : List Token)
    (hpre : validateFrom false false [] pre = Except.ok vpre)
    (ht : t.type = EntryKind.file)
    (hk : ¬ hasKey (ledgerAfter [] pre) ((t.depth : Int) - 2)) :
    validate_tokens (pre ++ t :: post) false false =
      Except.error (orphanMsg t) :=
  strict_orphan_aux pre t post vpre hpre ht hk

/-- Witness for C3: the single line `"  main.py"` (a file at depth 2 with no
preceding folder) fails `Strict` validation with the message
`Line 1: File 'main.py' has no parent folder at depth 0.`. -/
theorem validate_strict_orphan_halts_witness :
    validate_tokens ([] ++ mkToken 0 "  main.py" :: [mkToken 1 "extra.py"])
        false false =
      Except.error (orphanMsg (mkToken 0 "  main.py")) :=
  validate_strict_orphan_halts [] (mkToken 0 "  main.py") [mkToken 1 "extra.py"]
    [] rfl (by decide) (by decide)

/-- C4: for a File entry whose `depth - 2` is not a ledger key when it is
processed, `Skip` drops exactly that entry (the outputs of the part before
and the part after are concatenated without it) and `Fix` keeps it with
`depth` forced to `0` and every other field unchanged. -/
theorem validate_skip_drops_fix_reparents (pre : List Token) (t : Token)
    (post : List Token) (vpre vpost wpre wpost : List Token)
    (ht : t.type = EntryKind.file)
    (hk : ¬ hasKey (ledgerAfter [] pre) ((t.depth : Int) - 2))
    (hs1 : validateFrom true false [] pre = Except.ok vpre)
    (hs2 : validateFrom true false (ledgerAfter [] pre) post = Except.ok vpost)
    (hf1 : validateFrom false true [] pre = Except.ok wpre)
    (hf2 : validateFrom false true (ledgerAfter [] pre) post = Except.ok wpost) :
    validate_tokens (pre ++ t :: post) true false = Except.ok (vpre ++ vpost) ∧
    validate_tokens (pre ++ t :: post) false true =
      Except.ok (wpre ++ { t with depth := 0 } :: wpost) := by
  constructor
  · unfold validate_tokens
    rw [validateFrom_append, hs1]
    simp [validateFrom, ht, hk, hs2]
  · unfold validate_tokens
    rw [validateFrom_append, hf1]
    simp [validateFrom, ht, hk, hf2]

/-- Witness for C4 on `"src/"; "    x.py"; "  y.py"`: the depth-4 file
`x.py` is an orphan; `Skip` returns the other two entries, `Fix` keeps it
with depth 0 between them. -/
theorem validate_skip_drops_fix_reparents_witness :
    validate_tokens ([mkToken 0 "src/"] ++ mkToken 1 "    x.py" ::
        [mkToken 2 "  y.py"]) true false =
      Except.ok ([mkToken 0 "src/"] ++ [mkToken 2 "  y.py"]) ∧
    validate_tokens ([mkToken 0 "src/"] ++ mkToken 1 "    x.py" ::
        [mkToken 2 "  y.py"]) false true =
      Except.ok ([mkToken 0 "src/"] ++
        { mkToken 1 "    x.py" with depth := 0 } :: [mkToken 2 "  y.py"]) :=
  validate_skip_drops_fix_reparents [mkToken 0 "src/"] (mkToken 1 "    x.py")
    [mkToken 2 "  y.py"] [mkToken 0 "src/"] [mkToken 2 "  y.py"]
    [mkToken 0 "src/"] [mkToken 2 "  y.py"]
    (by decide) (by decide) rfl rfl rfl rfl

lemma ledgerAfter_keys_nonneg (pre : List Token) (L : Ledger)
    (hL : ∀ k ∈ L.map Prod.fst, 0 ≤ k) :
    ∀ k ∈ (ledgerAfter L pre).map Prod.fst, 0 ≤ k := by
  induction pre generalizing L with
  | nil => exact hL
  | cons t ts ih =>
    refine ih (ledgerUpd L t) ?_
    intro k hk
    unfold ledgerUpd at hk
    by_cases hf : t.type = EntryKind.folder
    · simp only [hf, if_true, ite_true, List.map_cons, List.mem_cons] at hk
      rcases hk with h | h
      · rw [h]; exact Int.natCast_nonneg t.depth
      · exact hL k h
    · simp only [hf, if_false, ite_false] at hk
      exact hL k hk

/-- C9: the folder ledger only ever holds the (non-negative, cast from `Nat`)
depths of Folder entries, so a File entry of depth less than 2 looks up the
negative key `depth - 2` and is always treated as an orphan; in particular,
under `Strict` policy a sequence reaching such an entry fails with its orphan
diagnostic — e.g. an input whose only entry is an unindented file name. -/
theorem file_depth_lt_two_is_orphan :
    (∀ (pre : List Token) (k : Int),
        k ∈ (ledgerAfter ([] : Ledger) pre).map Prod.fst → 0 ≤ k) ∧
    (∀ (L : Ledger) (t : Token),
        (∀ k ∈ L.map Prod.fst, 0 ≤ k) → t.depth < 2 →
        ¬ hasKey L ((t.depth : Int) - 2)) ∧
    (∀ (pre : List Token) (t : Token) (post : List Token) (vpre : List Token),
        validateFrom false false [] pre = Except.ok vpre →
        t.type = EntryKind.file → t.depth < 2 →
        validate_tokens (pre ++ t :: post) false false =
          Except.error (orphanMsg t)) := by
  have hneg : ∀ (L : Ledger) (t : Token),
      (∀ k ∈ L.map Prod.fst, 0 ≤ k) → t.depth < 2 →
      ¬ hasKey L ((t.depth : Int) - 2) := by
    intro L t hL hd hkey
    have h0 := hL _ hkey
    have : (t.depth : Int) ≤ 1 := by exact_mod_cast Int.ofNat_le.mpr (by omega)
    omega
  refine ⟨fun pre => ledgerAfter_keys_nonneg pre [] (by simp), hneg, ?_⟩
  intro pre t post vpre hpre ht hd
  exact strict_orphan_aux pre t post vpre hpre ht
    (hneg _ t (ledgerAfter_keys_nonneg pre [] (by simp)) hd)

/-- Witness for C9: the empty ledger has non-negative keys; the depth-0 file
token of the line `"main.py"` is an orphan key lookup; and the one-line input
`"main.py"` fails `Strict` validation with its orphan diagnostic. -/
theorem file_depth_lt_two_is_orphan_witness :
    ¬ hasKey ([] : Ledger) (((mkToken 0 "main.py").depth : Int) - 2) ∧
    validate_tokens ([] ++ mkToken 0 "main.py" :: []) false false =
      Except.error (orphanMsg (mkToken 0 "main.py")) :=
  ⟨file_depth_lt_two_is_orphan.2.1 [] (mkToken 0 "main.py") (by simp)
      (by decide),
    file_depth_lt_two_is_orphan.2.2 [] (mkToken 0 "main.py") [] [] rfl
      (by decide) (by decide)⟩

/-- Erase the one field the `Fix` policy may rewrite. -/
def stripDepth (t : Token) : Token := { t with depth := 0 }

lemma validateFrom_sublist (sb fb : Bool) (tokens : List Token) (L : Ledger)
    (out : List Token) (h : validateFrom sb fb L tokens = Except.ok out) :
    List.Sublist (out.map stripDepth) (tokens.map stripDepth) := by
  induction tokens generalizing L out with
  | nil =>
    simp only [validateFrom] at h
    cases h
    simp
  | cons t ts ih =>
    by_cases hc : t.type = EntryKind.file ∧ ¬ hasKey L ((t.depth : Int) - 2)
    · cases sb
      · cases fb
        · rw [validateFrom_cons_strict L t ts hc] at h
          exact absurd h (by simp)
        · rw [validateFrom_cons_fix L t ts hc] at h
          cases h1 : validateFrom false true L ts with
          | error e => rw [h1] at h; exact absurd h (by simp)
          | ok v =>
            rw [h1] at h
            cases h
            simp only [List.map_cons]
            have heq : stripDepth { t with depth := 0 } = stripDepth t := rfl
            rw [heq]
            exact List.Sublist.cons₂ _ (ih L v h1)
      · rw [validateFrom_cons_skip fb L t ts hc] at h
        exact List.Sublist.cons _ (ih L out h)
    · rw [validateFrom_cons_good sb fb L t ts hc] at h
      cases h1 : validateFrom sb fb (ledgerUpd L t) ts with
      | error e => rw [h1] at h; exact absurd h (by simp)
      | ok v =>
        rw [h1] at h
        cases h
        simp only [List.map_cons]
        exact List.Sublist.cons₂ _ (ih (ledgerUpd L t) v h1)

/-- C10: whenever validation succeeds (any of `Strict` success, `Skip`,
`Fix`), the output is the input with some entries removed and some depths
rewritten, never reordered: forgetting the `depth` field, the output list is
a sublist of the input list. -/
theorem validate_preserves_input_order (tokens : List Token)
    (sb fb : Bool) (out : List Token)
    (h : validate_tokens tokens sb fb = Except.ok out) :
    List.Sublist (out.map stripDepth) (tokens.map stripDepth) :=
  validateFrom_sublist sb fb tokens [] out h

/-- Witness for C10 under `Skip` on `"src/"; "x.py"; "  y.py"`: the orphan
`x.py` is dropped and the remaining entries keep their relative order. -/
theorem validate_preserves_input_order_witness :
    List.Sublist
      (([mkToken 0 "src/", mkToken 2 "  y.py"]).map stripDepth)
      (([mkToken 0 "src/", mkToken 1 "x.py", mkToken 2 "  y.py"]).map
        stripDepth) :=
  validate_preserves_input_order
    [mkToken 0 "src/", mkToken 1 "x.py", mkToken 2 "  y.py"] true false
    [mkToken 0 "src/", mkToken 2 "  y.py"] rfl

/-! ## Builder lemmas

The idempotence argument: a successful build leaves every directory it made
in `dirs` and every file it made in `files`; re-running the same steps only
meets already-existing entries, and `mkdir(exist_ok=True)` /
`touch(exist_ok=True)` leave those untouched.  The invariant `Rinv a g`
relates a state `a` to any state `g` reachable from it by successful steps:
the state only grows, files added later never sit where `a` already had a
directory, and directories added later never sit where `a` already had a
file. -/

/-- States `a` and `g` with `g` reachable from `a` by successful build
steps. -/
def Rinv (a g : FS) : Prop :=
  a.dirs ⊆ g.dirs ∧ a.files ⊆ g.files ∧
    (∀ p, p ∈ g.files → p ∉ a.files → p ∉ a.dirs) ∧
    (∀ p, p ∈ g.dirs → p ∉ a.dirs → p ∉ a.files)

lemma Rinv_refl (a : FS) : Rinv a a :=
  ⟨fun _ h => h, fun _ h => h,
    fun _ hg ha => absurd hg ha, fun _ hg ha => absurd hg ha⟩

lemma Rinv_trans {a b g : FS} (h1 : Rinv a b) (h2 : Rinv b g) : Rinv a g := by
  obtain ⟨d1, f1, n1, m1⟩ := h1
  obtain ⟨d2, f2, n2, m2⟩ := h2
  refine ⟨fun p hp => d2 (d1 hp), fun p hp => f2 (f1 hp), ?_, ?_⟩
  · intro p hg ha
    by_cases hb : p ∈ b.files
    · exact n1 p hb ha
    · intro hd
      exact n2 p hg hb (d1 hd)
  · intro p hg ha
    by_cases hb : p ∈ b.dirs
    · exact m1 p hb ha
    · intro hf
      exact m2 p hg hb (f1 hf)

lemma mem_addDir_self (ds : List (List String)) (q : List String) :
    q ∈ addDir ds q := by
  unfold addDir
  by_cases h : q ∈ ds <;> simp [h]

lemma subset_addDir (ds : List (List String)) (q : List String) :
    ds ⊆ addDir ds q := by
  unfold addDir
  by_cases h : q ∈ ds <;> simp [h, List.subset_append_left]

lemma mem_of_mem_addDir {ds : List (List String)} {q d : List String}
    (h : d ∈ addDir ds q) : d ∈ ds ∨ d = q := by
  unfold addDir at h
  by_cases hq : q ∈ ds
  · rw [if_pos hq] at h
    exact Or.inl h
  · rw [if_neg hq] at h
    rcases List.mem_append.1 h with h1 | h1
    · exact Or.inl h1
    · simp at h1
      exact Or.inr h1

lemma addDir_eq_of_mem {ds : List (List String)} {q : List String}
    (h : q ∈ ds) : addDir ds q = ds := by
  simp [addDir, h]

lemma subset_foldl_addDir (qs : List (List String))
    (ds : List (List String)) : ds ⊆ qs.foldl addDir ds := by
  induction qs generalizing ds with
  | nil => exact fun _ h => h
  | cons q qs ih =>
    exact fun d hd => ih (addDir ds q) (subset_addDir ds q hd)

lemma mem_foldl_addDir_of_mem (qs : List (List String))
    (ds : List (List String)) {q : List String} (h : q ∈ qs) :
    q ∈ qs.foldl addDir ds := by
  induction qs generalizing ds with
  | nil => cases h
  | cons r qs ih =>
    rcases List.mem_cons.1 h with h1 | h1
    · subst h1
      exact subset_foldl_addDir qs (addDir ds q) (mem_addDir_self ds q)
    · exact ih (addDir ds r) h1

lemma mem_of_mem_foldl_addDir (qs : List (List String))
    (ds : List (List String)) {d : List String}
    (h : d ∈ qs.foldl addDir ds) : d ∈ ds ∨ d ∈ qs := by
  induction qs generalizing ds with
  | nil => exact Or.inl h
  | cons q qs ih =>
    rcases ih (addDir ds q) h with h1 | h1
    · rcases mem_of_mem_addDir h1 with h2 | h2
      · exact Or.inl h2
      · exact Or.inr (by simp [h2])
    · exact Or.inr (by simp [h1])

lemma foldl_addDir_of_subset (qs : List (List String))
    (ds : List (List String)) (h : ∀ q ∈ qs, q ∈ ds) :
    qs.foldl addDir ds = ds := by
  induction qs generalizing ds with
  | nil => rfl
  | cons q qs ih =>
    rw [List.foldl_cons, addDir_eq_of_mem (h q (by simp))]
    exact ih ds (fun r hr => h r (by simp [hr]))

/-- Facts available after a successful `mkdirP`. -/
lemma mkdirP_ok (fs fs1 : FS) (p : List String)
    (h : mkdirP fs p = Except.ok fs1) :
    fs1.files = fs.files ∧ fs.dirs ⊆ fs1.dirs ∧
      (∀ q ∈ initSegs p, q ∈ fs1.dirs) ∧
      (∀ q ∈ initSegs p, q ∉ fs.files) ∧
      (∀ d ∈ fs1.dirs, d ∈ fs.dirs ∨ d ∈ initSegs p) := by
  unfold mkdirP at h
  by_cases hex : ∃ q ∈ initSegs p, q ∈ fs.files
  · rw [if_pos hex] at h
    cases h
  · rw [if_neg hex] at h
    cases h
    refine ⟨rfl, subset_foldl_addDir _ _, ?_, ?_, ?_⟩
    · exact fun q hq => mem_foldl_addDir_of_mem _ _ hq
    · exact fun q hq hf => hex ⟨q, hq, hf⟩
    · exact fun d hd => mem_of_mem_foldl_addDir _ _ hd

/-- Re-running `mkdirP` when every segment already exists as a directory and
none is a file is a successful no-op. -/
lemma mkdirP_noop (g : FS) (p : List String)
    (hd : ∀ q ∈ initSegs p, q ∈ g.dirs)
    (hf : ∀ q ∈ initSegs p, q ∉ g.files) :
    mkdirP g p = Except.ok g := by
  unfold mkdirP
  rw [if_neg (by rintro ⟨q, hq, hqf⟩; exact hf q hq hqf)]
  rw [foldl_addDir_of_subset _ _ hd]

/-- Facts available after a successful `touchF`. -/
lemma touchF_ok (fs fs1 : FS) (p : List String)
    (h : touchF fs p = Except.ok fs1) :
    fs1.dirs = fs.dirs ∧ fs.files ⊆ fs1.files ∧ p ∈ fs1.files ∧
      p ≠ [] ∧ p ∉ fs.dirs ∧
      (p.dropLast = [] ∨ p.dropLast ∈ fs.dirs) ∧
      (∀ f ∈ fs1.files, f ∈ fs.files ∨ f = p) := by
  unfold touchF at h
  by_cases h1 : p = [] ∨ p ∈ fs.dirs
  · rw [if_pos h1] at h
    cases h
  · rw [if_neg h1] at h
    by_cases h2 : p.dropLast = [] ∨ p.dropLast ∈ fs.dirs
    · rw [if_neg (not_not.2 h2)] at h
      by_cases h3 : p ∈ fs.files
      · rw [if_pos h3] at h
        cases h
        refine ⟨rfl, fun f hf => hf, h3, ?_, ?_, h2, fun f hf => Or.inl hf⟩
        · intro hp; exact h1 (Or.inl hp)
        · intro hp; exact h1 (Or.inr hp)
      · rw [if_neg h3] at h
        cases h
        refine ⟨rfl, List.subset_append_left _ _, by simp, ?_, ?_, h2, ?_⟩
        · intro hp; exact h1 (Or.inl hp)
        · intro hp; exact h1 (Or.inr hp)
        · intro f hf
          rcases List.mem_append.1 hf with h4 | h4
          · exact Or.inl h4
          · simp at h4
            exact Or.inr h4
    · rw [if_pos h2] at h
      cases h

/-- Re-running `touchF` on an already-existing file with its parent directory
still present is a successful no-op. -/
lemma touchF_noop (g : FS) (p : List String)
    (hf : p ∈ g.files) (hne : p ≠ []) (hd : p ∉ g.dirs)
    (hpar : p.dropLast = [] ∨ p.dropLast ∈ g.dirs) :
    touchF g p = Except.ok g := by
  unfold touchF
  rw [if_neg (by rintro (h | h); exact hne h; exact hd h)]
  rw [if_neg (not_not.2 hpar)]
  rw [if_pos hf]

lemma initSegs_length_le {p q : List String} (h : q ∈ initSegs p) :
    q.length ≤ p.length := by
  unfold initSegs at h
  simp only [List.mem_map, List.mem_range] at h
  obtain ⟨i, _, hq⟩ := h
  rw [← hq]
  simp [List.length_take]

/-- A single successful build step relates its states by `Rinv`. -/
lemma buildOne_Rinv (base : List String) (a a1 : FS) (t : Token)
    (h : buildOne false base a t = Except.ok a1) : Rinv a a1 := by
  unfold buildOne at h
  cases htype : t.type with
  | folder =>
    rw [htype] at h
    simp only [Bool.false_eq_true, if_false, ite_false] at h
    obtain ⟨hfe, hds, hsegs, hnf, hnew⟩ := mkdirP_ok a a1 _ h
    refine ⟨hds, by rw [hfe]; exact fun f hf => hf, ?_, ?_⟩
    · intro p hp hnp
      rw [hfe] at hp
      exact absurd hp hnp
    · intro p hp hnp
      rcases hnew p hp with h1 | h1
      · exact absurd h1 hnp
      · exact hnf p h1
  | file =>
    rw [htype] at h
    simp only [Bool.false_eq_true, if_false, ite_false] at h
    cases hm : mkdirP a ((joinPath base t.name).dropLast) with
    | error e => rw [hm] at h; cases h
    | ok am =>
      rw [hm] at h
      obtain ⟨hfe, hds, hsegs, hnf, hnew⟩ := mkdirP_ok a am _ hm
      obtain ⟨hde, hfs, hpm, hpne, hpnd, hpar, hfnew⟩ := touchF_ok am a1 _ h
      have hstep1 : Rinv a am := by
        refine ⟨hds, by rw [hfe]; exact fun f hf => hf, ?_, ?_⟩
        · intro p hp hnp
          rw [hfe] at hp
          exact absurd hp hnp
        · intro p hp hnp
          rcases hnew p hp with h1 | h1
          · exact absurd h1 hnp
          · exact hnf p h1
      have hstep2 : Rinv am a1 := by
        refine ⟨by rw [hde]; exact fun d hd => hd, hfs, ?_, ?_⟩
        · intro p hp hnp
          rcases hfnew p hp with h1 | h1
          · exact absurd h1 hnp
          · rw [h1]
            exact hpnd
        · intro p hp hnp
          rw [hde] at hp
          exact absurd hp hnp
      exact Rinv_trans hstep1 hstep2

/-- Every state reached by a successful run is `Rinv`-related to the start. -/
lemma runBuild_Rinv (base : List String) (ops : List Token) (a g : FS)
    (h : runBuild false base a ops = Except.ok g) : Rinv a g := by
  induction ops generalizing a with
  | nil =>
    unfold runBuild at h
    cases h
    exact Rinv_refl _
  | cons t ts ih =>
    unfold runBuild at h
    cases h1 : buildOne false base a t with
    | error e => rw [h1] at h; cases h
    | ok a1 =>
      rw [h1] at h
      exact Rinv_trans (buildOne_Rinv base a a1 t h1) (ih a1 h)

/-- A step that succeeded earlier in a successful run is a no-op on the final
state. -/
lemma buildOne_noop (base : List String) (a a1 g : FS) (t : Token)
    (h : buildOne false base a t = Except.ok a1) (hR : Rinv a1 g) :
    buildOne false base g t = Except.ok g := by
  obtain ⟨hRd, hRf, hRn, hRm⟩ := hR
  unfold buildOne at h ⊢
  cases htype : t.type with
  | folder =>
    rw [htype] at h
    simp only [Bool.false_eq_true, if_false, ite_false] at h ⊢
    obtain ⟨hfe, hds, hsegs, hnf, hnew⟩ := mkdirP_ok a a1 _ h
    refine mkdirP_noop g _ (fun q hq => hRd (hsegs q hq)) ?_
    intro q hq hqf
    have hq1 : q ∉ a1.files := by
      rw [hfe]
      exact hnf q hq
    exact hRn q hqf hq1 (hsegs q hq)
  | file =>
    rw [htype] at h
    simp only [Bool.false_eq_true, if_false, ite_false] at h ⊢
    cases hm : mkdirP a ((joinPath base t.name).dropLast) with
    | error e => rw [hm] at h; cases h
    | ok am =>
      rw [hm] at h
      obtain ⟨hfe, hds, hsegs, hnf, hnew⟩ := mkdirP_ok a am _ hm
      obtain ⟨hde, hfs, hpm, hpne, hpnd, hpar, hfnew⟩ := touchF_ok am a1 _ h
      have hsegs1 : ∀ q ∈ initSegs ((joinPath base t.name).dropLast),
          q ∈ a1.dirs := by
        intro q hq
        rw [hde]
        exact hsegs q hq
      have hmg : mkdirP g ((joinPath base t.name).dropLast) = Except.ok g := by
        refine mkdirP_noop g _ (fun q hq => hRd (hsegs1 q hq)) ?_
        intro q hq hqf
        have hlen : q.length < (joinPath base t.name).length := by
          have h1 := initSegs_length_le hq
          have h2 : (joinPath base t.name).dropLast.length =
              (joinPath base t.name).length - 1 := by
            simp [List.length_dropLast]
          have h3 : (joinPath base t.name).length ≠ 0 :=
            fun h0 => hpne (List.eq_nil_of_length_eq_zero h0)
          omega
        have hq1 : q ∉ a1.files := by
          intro hq1
          rcases hfnew q hq1 with h1 | h1
          · rw [hfe] at h1
            exact hnf q hq h1
          · rw [h1] at hlen
            omega
        exact hRn q hqf hq1 (hsegs1 q hq)
      rw [hmg]
      refine touchF_noop g _ (hRf hpm) hpne ?_ ?_
      · intro hgd
        have hnd1 : joinPath base t.name ∉ a1.dirs := by
          rw [hde]
          exact hpnd
        exact hRm _ hgd hnd1 hpm
      · rcases hpar with h1 | h1
        · exact Or.inl h1
        · refine Or.inr (hRd ?_)
          rw [hde]
          exact h1

/-- Re-running an entire successful sequence of build steps from its final
state succeeds and leaves the state unchanged. -/
lemma runBuild_idem (base : List String) (ops : List Token) (a g : FS)
    (h : runBuild false base a ops = Except.ok g) :
    runBuild false base g ops = Except.ok g := by
  induction ops generalizing a with
  | nil =>
    unfold runBuild at h
    cases h
    rfl
  | cons t ts ih =>
    unfold runBuild at h ⊢
    cases h1 : buildOne false base a t with
    | error e => rw [h1] at h; cases h
    | ok a1 =>
      rw [h1] at h
      rw [buildOne_noop base a a1 g t h1 (runBuild_Rinv base ts a1 g h)]
      exact ih a1 h

/-- C5: running the Builder twice on the same validated tokens with
`dry_run = false` produces no error the second time: if the first run turns
`fs` into `g`, the second run succeeds and leaves `g` exactly unchanged
(already-existing folders and files are not an error and are not touched). -/
theorem build_from_tokens_idempotent (base : List String)
    (tokens : List Token) (fs g : FS)
    (h : build_from_tokens base tokens false fs = Except.ok g) :
    build_from_tokens base tokens false g = Except.ok g :=
  runBuild_idem base _ fs g h

/-- Witness for C5 on the validated tokens of the scenario input: the first
build from an empty filesystem yields flat `src`, `utils`, `main.py`,
`helper.py`; the second build returns that state unchanged. -/
theorem build_from_tokens_idempotent_witness :
    build_from_tokens []
      (tokenize_structure ["src/\n", "  main.py\n", "  utils/\n",
        "    helper.py\n"]) false
      ⟨[["src"], ["utils"]], [["main.py"], ["helper.py"]]⟩ =
    Except.ok ⟨[["src"], ["utils"]], [["main.py"], ["helper.py"]]⟩ :=
  build_from_tokens_idempotent []
    (tokenize_structure ["src/\n", "  main.py\n", "  utils/\n",
      "    helper.py\n"])
    ⟨[], []⟩ ⟨[["src"], ["utils"]], [["main.py"], ["helper.py"]]⟩ (by decide)

/-! ## The forward scenario and the round-trip -/

/-- C1 (code bug): on the scenario input under `Strict` policy with
`dry_run = false`, the Builder resolves every entry as `base / name` with the
bare base name only (scaffold.py lines 141 and 149), never rebuilding the
nested path from the depths, so the pipeline creates the flat layout
`src`, `utils`, `main.py`, `helper.py` directly under the base: the nested
`src/utils`, `src/main.py` and `src/utils/helper.py` of the claim are not
created. -/
theorem scenario_strict_build_is_flat :
    runPipeline ["src/\n", "  main.py\n", "  utils/\n", "    helper.py\n"]
        false false false ⟨[], []⟩ =
      Except.ok ⟨[["src"], ["utils"]], [["main.py"], ["helper.py"]]⟩ ∧
    ["src", "utils"] ∉ ([["src"], ["utils"]] : List (List String)) ∧
    ["src", "main.py"] ∉ ([["main.py"], ["helper.py"]] : List (List String)) ∧
    ["src", "utils", "helper.py"] ∉
      ([["main.py"], ["helper.py"]] : List (List String)) := by
  refine ⟨by decide, by decide, by decide, by decide⟩

/-- C2 (code bug): walking the tree `src/` containing `main.py`, re-tokenizing
the produced lines, validating under `Strict`, and rebuilding into an empty
target yields the file `main.py` at the root instead of `src/main.py`: the
nesting of the original tree is not reproduced.  Worse, the walk of a tree
whose only entry is a top-level file `a.py` produces a depth-0 File entry,
which `Strict` validation rejects outright as an orphan, so that tree cannot
round-trip at all. -/
theorem roundtrip_rebuild_differs :
    walkKids 0 [FsTree.dir "src" [FsTree.file "main.py"]] =
      ["src/", "  main.py"] ∧
    runPipeline (walkKids 0 [FsTree.dir "src" [FsTree.file "main.py"]])
        false false false ⟨[], []⟩ =
      Except.ok ⟨[["src"]], [["main.py"]]⟩ ∧
    rootFilePaths [FsTree.dir "src" [FsTree.file "main.py"]] =
      [["src", "main.py"]] ∧
    ([["main.py"]] : List (List String)) ≠ [["src", "main.py"]] ∧
    runPipeline (walkKids 0 [FsTree.file "a.py"]) false false false ⟨[], []⟩ =
      Except.error (orphanMsg (mkToken 0 "a.py")) := by
  refine ⟨by decide, by decide, by decide, by decide, by decide⟩

end Scaffold
